import Mathlib

/-
  A shallow embedding of `src/blockchain.js` (class `Blockchain`).

  Modelling conventions:
  * JS numbers that are used as non-negative integers (block heights,
    second-resolution timestamps) are `Nat`; the chain-level `height`
    field starts at `-1`, so it is `Int`.
  * `new Date().getTime().toString().slice(0,-3)` yields the epoch time in
    seconds (as a string); the clock is passed in as a `now : Nat`
    argument giving those seconds, and `block.time` stores it as a `Nat`.
  * The block body is stored in the source as an opaque encoded string,
    decodable into either the genesis datum, a star-registration message,
    or nothing.  We keep the decoded shape as an inductive `Payload`.
  * `crypto-js`'s SHA256 is modelled as an injective tagging function on
    the serialized text (an ideal collision-free digest); the claims only
    depend on which fields the digest covers, never on its bit-level form.
  * Promises: every method of the class builds its result synchronously
    inside the promise executor (there is no `await` before the state
    mutations), and the `.then` handlers that push into a shared array
    run, in source order, before any caller's continuation observes the
    resolved array; so each method is embedded as a pure function from the
    pre-state to (result, post-state).
  * `reject x` is an `Except.error`; `resolve null` is an `Option` result.
-/

/-- The decoded shape of a block body.  The source stores bodies as opaque
strings produced from either `\x7bdata: 'Genesis Block'\x7d` (the genesis
payload), a star registration `\x7bmessage, signature, star\x7d`, or
arbitrary bytes that fail to decode. -/
inductive Payload where
  | genesis (data : String)
  | star (message : String) (signature : String) (starData : String)
  | undecodable (raw : String)
deriving DecidableEq

/-- A block, with the fields of `block.js`'s `Block` class in declaration
order: `hash`, `height`, `body`, `time`, `previousBlockHash`.
`hash` and `previousBlockHash` are `null` (`none`) until assigned. -/
structure Block where
  hash : Option String
  height : Nat
  body : Payload
  time : Nat
  previousBlockHash : Option String
deriving DecidableEq

/-- Modelled from the spec: `block.js` is not in the repository snapshot
(only `blockchain.js` is), so the `Block` constructor is taken from the
spec's data model: a fresh record has no digest yet, default position 0,
the given payload, default time, and the `null` sentinel as its
previous digest. -/
def BlockClass.Block (data : Payload) : Block :=
  { hash := none, height := 0, body := data, time := 0, previousBlockHash := none }

/-- Serialization of an optional (nullable) string field, as JSON would
render it: `null` or the quoted text. -/
def stringifyOpt : Option String → String
  | none => "null"
  | some s => "(" ++ s ++ ")"

/-- Canonical serialization of a decoded body, standing for the opaque
encoded string the source keeps in `block.body`. -/
def stringifyPayload : Payload → String
  | .genesis d => "genesisData:" ++ d
  | .star m sg st => "starData:" ++ m ++ "|" ++ sg ++ "|" ++ st
  | .undecodable r => "rawData:" ++ r

/-- `JSON.stringify(block)`: serializes every field of the block, in
declaration order, including the current `hash` field. -/
def stringifyBlock (b : Block) : String :=
  "hash=" ++ stringifyOpt b.hash ++
  ";height=" ++ toString b.height ++
  ";body=" ++ stringifyPayload b.body ++
  ";time=" ++ toString b.time ++
  ";previousBlockHash=" ++ stringifyOpt b.previousBlockHash

/-- `crypto-js/sha256`, modelled as an injective tagging of the input
text (an ideal, collision-free digest).  No claim depends on anything
but determinism and injectivity of the digest. -/
def SHA256 (s : String) : String :=
  "sha256#" ++ s

/-- The mutable state of a `Blockchain` instance: the `chain` array and
the `height` field (initialized to `-1` in the constructor). -/
structure ChainState where
  chain : List Block
  height : Int
deriving DecidableEq

/-- `_appendBlockOntoTheChain(block)`: pushes the block and sets
`this.height = this.chain.length` (the length after the push), returning
the block. -/
def _appendBlockOntoTheChain (s : ChainState) (b : Block) : Block × ChainState :=
  (b, { chain := s.chain ++ [b], height := ((s.chain ++ [b]).length : Int) })

/-- Modelled from the spec: `block.js` is not in the repository snapshot,
so `Block.validate()` follows the spec's validator contract: recompute
the digest of the record from its fields excluding the digest itself and
compare it with the stored digest. -/
def blockValidate (b : Block) : Bool :=
  b.hash == some (SHA256 (stringifyBlock { b with hash := none }))

/-- A `validateChain()` error-log entry.  The source pushes plain objects
carrying the offending block's `hash` plus an error text; the three
shapes that occur are kept as constructors. -/
inductive ChainError where
  /-- `\x7b"Block's Hash": hash, "Error": "Block's Body has been altered."\x7d` -/
  | bodyAltered (blockHash : Option String)
  /-- `\x7b"Block's Hash": hash, "Error": "Hash Not Matching: ..."\x7d`,
  carrying the block's own hash and the threaded previous hash. -/
  | hashNotMatching (blockHash : Option String) (previousHash : Option String)
  /-- `\x7b"Error": "No Block Present on the Chain."\x7d` -/
  | noBlockPresent
deriving DecidableEq

/-- The linkage errors pushed synchronously by the `forEach` loop of
`validateChain`: `previousHash` starts at `null` and is set to each
block's stored `hash` after comparing it with the next block's
`previousBlockHash`. -/
def linkErrors : Option String → List Block → List ChainError
  | _, [] => []
  | prevHash, b :: rest =>
    (if b.previousBlockHash == prevHash then [] else
      [ChainError.hashNotMatching b.hash prevHash]) ++ linkErrors b.hash rest

/-- The body errors pushed by the `block.validate().then(...)` handlers,
one per block whose recomputed digest mismatches its stored digest; the
handlers run in block order. -/
def bodyErrors (c : List Block) : List ChainError :=
  c.filterMap fun b => if blockValidate b then none else some (ChainError.bodyAltered b.hash)

/-- `validateChain()`: resolves with the error-log array.  On an empty
chain the log holds the single `noBlockPresent` entry.  Otherwise every
linkage error is pushed synchronously during the loop and every body
error is pushed by a microtask that runs before any caller observes the
resolved array, so the observed log is the linkage errors (in block
order) followed by the body errors (in block order).  The promise always
RESOLVES with the array; it never rejects. -/
def validateChain (c : List Block) : List ChainError :=
  if c.isEmpty then [ChainError.noBlockPresent]
  else linkErrors none c ++ bodyErrors c

/-- JS truthiness of the resolved error-log array in
`state ? resolve(...) : reject("Chain Invalid")`: an array is an object
and every object is truthy, whatever it contains. -/
def jsTruthy (_log : List ChainError) : Bool :=
  true

/-- JS truthiness of the block object returned by `_appendGenesisBlock`
in `this._appendGenesisBlock(block) ? resolve(block) : reject(...)`:
a class instance is an object and every object is truthy. -/
def jsTruthyBlock (_b : Block) : Bool :=
  true

/-- The errors `_addBlock` can reject with: `reject(block)` with the
falsy (null) block itself, `reject("Chain Invalid")`, and
`reject("Failed to Append Genesis Block")`. -/
inductive AddErr where
  | nullBlock
  | chainInvalid
  | genesisFailed
deriving DecidableEq

/-- `_addBlock(block)`: if the block is non-null, assign `time` from the
clock, then compute `hash = SHA256(JSON.stringify(block))` over the block
AS IT IS AT THAT POINT (its `height` and `previousBlockHash` fields still
hold their pre-append values); only afterwards, when the chain is
non-empty, set `height` and `previousBlockHash` from the tail block,
run `validateChain()` and, when its resolved value is truthy, push.
On the empty chain the genesis branch pushes directly.  A null block is
rejected with the block itself and nothing is mutated.  The returned
pair is (settled result, post-state). -/
def _addBlock (s : ChainState) (b? : Option Block) (now : Nat) :
    Except AddErr Block × ChainState :=
  match b? with
  | none => (Except.error AddErr.nullBlock, s)
  | some b =>
    let b1 : Block := { b with time := now }
    let b2 : Block := { b1 with hash := some (SHA256 (stringifyBlock b1)) }
    match s.chain.getLast? with
    | some previousBlock =>
      let b3 : Block := { b2 with height := previousBlock.height + 1,
                                  previousBlockHash := previousBlock.hash }
      if jsTruthy (validateChain s.chain) then
        let r := _appendBlockOntoTheChain s b3
        (Except.ok r.1, r.2)
      else
        (Except.error AddErr.chainInvalid, s)
    | none =>
      let r := _appendBlockOntoTheChain s b2
      if jsTruthyBlock r.1 then (Except.ok r.1, r.2)
      else (Except.error AddErr.genesisFailed, r.2)

/-- A trace of how many times `_addBlock(block)` evaluates
`this.validateChain()` on the way to its result, mirroring the source's
control flow: the call sits only in the non-null, non-empty-chain
branch (line 80), and runs exactly once there. -/
def addBlockValidateRuns (s : ChainState) (b? : Option Block) : Nat :=
  match b? with
  | none => 0
  | some _ =>
    match s.chain.getLast? with
    | some _ => 1
    | none => 0

/-- `initializeChain()`: when `this.height === -1`, add the genesis block
`new Block(\x7bdata: 'Genesis Block'\x7d)` via `_addBlock`; otherwise do
nothing. -/
def initializeChain (s : ChainState) (now : Nat) : ChainState :=
  if s.height = -1 then
    (_addBlock s (some (BlockClass.Block (Payload.genesis "Genesis Block"))) now).2
  else s

/-- The constructor: `chain = []`, `height = -1`, then
`initializeChain()`. -/
def newBlockchain (now : Nat) : ChainState :=
  initializeChain { chain := [], height := -1 } now

/-- `getChainHeight()`. -/
def getChainHeight (s : ChainState) : Int :=
  s.height

/-- `requestMessageOwnershipVerification(address)`: resolves with
`"$\x7baddress\x7d:$\x7bseconds\x7d:starRegistry"`. -/
def requestMessageOwnershipVerification (address : String) (now : Nat) : String :=
  address ++ ":" ++ toString now ++ ":starRegistry"

/-- JS `String.prototype.split` with a single-character separator, on the
character list: splitting never yields an empty list (splitting the empty
string yields `[[]]`). -/
def splitCharAux (sep : Char) : List Char → List Char → List (List Char)
  | [], acc => [acc.reverse]
  | c :: cs, acc =>
    if c = sep then acc.reverse :: splitCharAux sep cs []
    else splitCharAux sep cs (c :: acc)

/-- JS `s.split(sep)` for a single-character separator. -/
def jsSplit (sep : Char) (s : String) : List String :=
  (splitCharAux sep s.toList []).map fun l => String.mk l

/-- JS `parseInt(s)`: parses the leading run of decimal digits; a string
that does not start with a digit gives `NaN`, modelled as `none` (the
source never feeds `parseInt` a sign or whitespace). -/
def jsParseInt (s : String) : Option Nat :=
  match s.toList.takeWhile Char.isDigit with
  | [] => none
  | ds => some (ds.foldl (fun acc ch => acc * 10 + (ch.toNat - 48)) 0)

/-- `parseInt(message.split(':')[1])`: the source's extraction of the
issue time embedded in an ownership message.  An out-of-range index or a
non-numeric segment gives `NaN`, modelled as `none` (every comparison
with `NaN` is false, so the submission check fails). -/
def parseMessageTime (message : String) : Option Nat :=
  jsParseInt ((jsSplit ':' message).getD 1 "")

/-- `new Date(ms).getMinutes()` for a UTC-local runtime: the
minutes-of-hour component of the instant `ms` milliseconds after the
epoch (floor division, result in `[0, 59]` also for negative inputs). -/
def jsDateGetMinutes (ms : Int) : Int :=
  (Int.fdiv ms 60000) % 60

/-- `submitStar(address, message, signature, star)`: parse the issue time
out of the message, take the current time in seconds, and accept when
`new Date(currentTime - messageTime).getMinutes() < 5` (the SECONDS
difference is fed to `Date` as MILLISECONDS and only the minutes-of-hour
component of the resulting instant is compared) and the signature
verifies.  The `bitcoinjs-message` verification is an external oracle,
passed in as `sigValid`.  On acceptance the new star block goes through
`_addBlock` and the method resolves with it (the source resolves the
same, by-then mutated, block object); otherwise it rejects with
"Failed to Submit Star".  A message with no parsable time gives `NaN`
comparisons, which fail the check. -/
def submitStar (s : ChainState) (address message signature starData : String)
    (now : Nat) (sigValid : Bool) : Except String Block × ChainState :=
  match parseMessageTime message with
  | none => (Except.error "Failed to Submit Star", s)
  | some messageTime =>
    if jsDateGetMinutes ((now : Int) - (messageTime : Int)) < 5 && sigValid then
      let newBlock := BlockClass.Block (Payload.star message signature starData)
      match _addBlock s (some newBlock) now with
      | (Except.ok blk, s') => (Except.ok blk, s')
      | (Except.error _, s') => (Except.error "Failed to Submit Star", s')
    else
      (Except.error "Failed to Submit Star", s)

/-- `getBlockByHash(hash)`: `find` over the chain; resolves with the
found block, REJECTS with "Block Not Found." otherwise. -/
def getBlockByHash (c : List Block) (h : String) : Except String Block :=
  match c.find? (fun b => b.hash == some h) with
  | some b => Except.ok b
  | none => Except.error "Block Not Found."

/-- `getBlockByHeight(height)`: `filter(p => p.height === height)[0]`;
resolves with the block, or with `null` (`none`) when there is none. -/
def getBlockByHeight (c : List Block) (h : Nat) : Option Block :=
  (c.filter fun b => b.height == h).head?

/-- Modelled from the spec: `block.js` is not in the repository snapshot,
so `Block.getBData()` follows the spec's decode contract: decoding the
payload succeeds exactly for a conforming star registration and yields
its decoded value; the genesis record's non-conforming payload and an
undecodable payload are decode failures. -/
def getBData (b : Block) : Except String (String × String × String) :=
  match b.body with
  | .star m sg st => Except.ok (m, sg, st)
  | .genesis _ => Except.error "Genesis Block has no owner data."
  | .undecodable _ => Except.error "Failed to decode the body."

/-- The filter `getStarsByWalletAddress` applies to one block: decode via
`getBData`; on success compare `value.message.split(':')[0]` with the
queried address and keep `\x7bowner: address, star: value.star\x7d`;
a decode failure is logged and the block is skipped. -/
def starOf (address : String) (b : Block) : Option (String × String) :=
  match getBData b with
  | Except.ok (m, _, st) =>
    if (jsSplit ':' m).getD 0 "" == address then some (address, st) else none
  | Except.error _ => none

/-- `getStarsByWalletAddress(address)`: on a non-empty chain, every
block's `getBData().then` handler runs (in block order) before the
caller observes the resolved `stars` array, pushing the matching
entries; decode failures only hit the logging handler.  An empty chain
rejects with "Failed.". -/
def getStarsByWalletAddress (c : List Block) (address : String) :
    Except String (List (String × String)) :=
  if c.isEmpty then Except.error "Failed."
  else Except.ok (c.filterMap (starOf address))

/-- The states reachable through the class's own lifecycle: the
constructor (which runs `initializeChain`), followed by any sequence of
successful `_addBlock` calls (`submitStar` appends only through
`_addBlock`). -/
inductive Reachable : ChainState → Prop where
  | init (t : Nat) : Reachable (newBlockchain t)
  | append (s : ChainState) (b : Block) (now : Nat) (blk : Block)
      (hs : Reachable s)
      (hok : (_addBlock s (some b) now).1 = Except.ok blk) :
      Reachable (_addBlock s (some b) now).2

/-- Chain linkage as threaded by `validateChain`'s loop and maintained by
`_addBlock`: each block's `previousBlockHash` equals the running previous
hash, which starts at the `null` sentinel. -/
def linkedFrom : Option String → List Block → Bool
  | _, [] => true
  | prevHash, b :: rest => (b.previousBlockHash == prevHash) && linkedFrom b.hash rest

/-- The hash of the last block of `c`, or the running value `p` when `c`
is empty. -/
def tailHash (p : Option String) (c : List Block) : Option String :=
  match c.getLast? with
  | some b => b.hash
  | none => p

/-- The invariant `_addBlock` maintains on every state the class can
reach: a non-empty chain, `height` equal to the chain length, every
stored hash assigned, full linkage from the `null` sentinel, positions
`0, 1, 2, ...` in order, and exactly one record carrying the sentinel
previous hash. -/
def ChainInv (s : ChainState) : Prop :=
  s.chain ≠ [] ∧
  s.height = (s.chain.length : Int) ∧
  (∀ b ∈ s.chain, b.hash ≠ none) ∧
  linkedFrom none s.chain = true ∧
  (∀ (i : Nat) (b : Block), s.chain[i]? = some b → b.height = i) ∧
  s.chain.countP (fun b => b.previousBlockHash == none) = 1

/-- The genesis block as `_addBlock` creates it at clock second `t`. -/
def genesisBlockAt (t : Nat) : Block :=
  { hash := some (SHA256 (stringifyBlock
      { hash := none, height := 0, body := Payload.genesis "Genesis Block",
        time := t, previousBlockHash := none })),
    height := 0, body := Payload.genesis "Genesis Block", time := t,
    previousBlockHash := none }

theorem newBlockchain_eq (t : Nat) :
    newBlockchain t = { chain := [genesisBlockAt t], height := 1 } := rfl

/-- The block `_addBlock` pushes onto a non-empty chain whose tail is
`prev`: `time` from the clock, the digest computed BEFORE `height` and
`previousBlockHash` are overwritten from the tail. -/
def mkAppended (b : Block) (prev : Block) (now : Nat) : Block :=
  { b with time := now,
           hash := some (SHA256 (stringifyBlock { b with time := now })),
           height := prev.height + 1,
           previousBlockHash := prev.hash }

theorem addBlock_ok_eq (s : ChainState) (b : Block) (now : Nat) (prev : Block)
    (h : s.chain.getLast? = some prev) :
    _addBlock s (some b) now =
      (Except.ok (mkAppended b prev now),
       { chain := s.chain ++ [mkAppended b prev now],
         height := ((s.chain ++ [mkAppended b prev now]).length : Int) }) := by
  simp [_addBlock, h, jsTruthy, _appendBlockOntoTheChain, mkAppended]

theorem tailHash_cons (p : Option String) (a : Block) (c : List Block) :
    tailHash p (a :: c) = tailHash a.hash c := by
  cases c with
  | nil => simp [tailHash]
  | cons x xs =>
    rcases hgl : (x :: xs).getLast? with _ | y
    · simp at hgl
    · simp [tailHash, List.getLast?_cons_cons, hgl]

theorem linkedFrom_concat (c : List Block) (p : Option String) (b : Block) :
    linkedFrom p (c ++ [b]) =
      (linkedFrom p c && (b.previousBlockHash == tailHash p c)) := by
  induction c generalizing p with
  | nil => simp [linkedFrom, tailHash]
  | cons a rest ih =>
    simp [linkedFrom, ih, tailHash_cons, Bool.and_assoc]

theorem linkedFrom_head {c : List Block} {p : Option String} {x : Block}
    (h : linkedFrom p c = true) (hx : c.head? = some x) :
    x.previousBlockHash = p := by
  cases c with
  | nil => simp at hx
  | cons a rest =>
    obtain rfl : a = x := by simpa using hx
    have h' := h
    simp only [linkedFrom, Bool.and_eq_true, beq_iff_eq] at h'
    exact h'.1

theorem linkedFrom_adj {l : List Block} {p : Option String}
    (h : linkedFrom p l = true) :
    ∀ i x y, l[i]? = some x → l[i + 1]? = some y →
      y.previousBlockHash = x.hash := by
  induction l generalizing p with
  | nil => intro i x y hx _; simp at hx
  | cons a rest ih =>
    intro i x y hx hy
    have h' := h
    simp only [linkedFrom, Bool.and_eq_true, beq_iff_eq] at h'
    cases i with
    | zero =>
      obtain rfl : a = x := by simpa using hx
      have hy' : rest.head? = some y := by
        rw [List.head?_eq_getElem?]; simpa using hy
      exact linkedFrom_head h'.2 hy'
    | succ n =>
      exact ih h'.2 n x y (by simpa using hx) (by simpa using hy)

theorem reachable_inv {s : ChainState} (h : Reachable s) : ChainInv s := by
  induction h with
  | init t =>
    refine ⟨by simp [newBlockchain_eq], by simp [newBlockchain_eq], ?_, ?_, ?_, ?_⟩
    · intro b hb
      rw [newBlockchain_eq] at hb
      obtain rfl : b = genesisBlockAt t := by simpa using hb
      simp [genesisBlockAt]
    · simp [newBlockchain_eq, linkedFrom, genesisBlockAt, BlockClass.Block]
    · intro i b hb
      rw [newBlockchain_eq] at hb
      cases i with
      | zero =>
        obtain rfl : genesisBlockAt t = b := by simpa using hb
        simp [genesisBlockAt]
      | succ n => simp at hb
    · simp [newBlockchain_eq, List.countP_cons, genesisBlockAt]
  | append s b now blk hs hok ih =>
    obtain ⟨hne, hht, hhash, hlink, hpos, hcount⟩ := ih
    obtain ⟨prev, hL⟩ : ∃ prev, s.chain.getLast? = some prev := by
      cases hGL : s.chain.getLast? with
      | none => exact absurd (List.getLast?_eq_none_iff.mp hGL) hne
      | some prev => exact ⟨prev, rfl⟩
    rw [addBlock_ok_eq s b now prev hL]
    have hprevmem : prev ∈ s.chain := List.mem_of_getLast?_eq_some hL
    obtain ⟨ph, hph⟩ : ∃ ph, prev.hash = some ph := by
      cases hp : prev.hash with
      | none => exact absurd hp (hhash prev hprevmem)
      | some ph => exact ⟨ph, rfl⟩
    have hlen1 : 1 ≤ s.chain.length := by
      cases hc : s.chain with
      | nil => exact absurd hc hne
      | cons _ _ => simp [hc]
    refine ⟨by simp, by simp, ?_, ?_, ?_, ?_⟩
    · intro x hx
      rcases List.mem_append.mp hx with hx | hx
      · exact hhash x hx
      · obtain rfl : x = mkAppended b prev now := by simpa using hx
        simp [mkAppended]
    · rw [linkedFrom_concat]
      have hth : tailHash none s.chain = prev.hash := by simp [tailHash, hL]
      simp [hlink, hth, mkAppended]
    · intro i x hx
      rcases Nat.lt_or_ge i s.chain.length with hlt | hge
      · rw [List.getElem?_append_left hlt] at hx
        exact hpos i x hx
      · rw [List.getElem?_append_right hge] at hx
        have hi0 : i - s.chain.length = 0 := by
          by_contra hne0
          have : 1 ≤ i - s.chain.length := Nat.one_le_iff_ne_zero.mpr hne0
          simp [List.getElem?_eq_none (by simpa using this : ([mkAppended b prev now] : List Block).length ≤ i - s.chain.length)] at hx
        rw [hi0] at hx
        obtain rfl : mkAppended b prev now = x := by simpa using hx
        have hidx : s.chain[s.chain.length - 1]? = some prev := by
          rw [← List.getLast?_eq_getElem?]; exact hL
        have hph' : prev.height = s.chain.length - 1 := hpos _ _ hidx
        have : i = s.chain.length := by omega
        simp [mkAppended, hph', this]
        omega
    · rw [List.countP_append, hcount]
      have hpb : (mkAppended b prev now).previousBlockHash = some ph := by
        simp [mkAppended, hph]
      simp [List.countP_cons, hpb]

/-- C2: in every ledger produced by the constructor (which appends the
genesis block) followed by any sequence of successful appends, the record
at each position `i > 0` carries the digest of the record at position
`i - 1` in `previousBlockHash`, and the record at position 0 carries the
`null` sentinel. -/
theorem linkage_invariant (s : ChainState) (hs : Reachable s) :
    (∀ b, s.chain.head? = some b → b.previousBlockHash = none) ∧
    (∀ i x y, s.chain[i]? = some x → s.chain[i + 1]? = some y →
      y.previousBlockHash = x.hash) := by
  obtain ⟨-, -, -, hlink, -, -⟩ := reachable_inv hs
  exact ⟨fun b hb => linkedFrom_head hlink hb, linkedFrom_adj hlink⟩

theorem linkage_invariant_witness :
    (∀ b, (newBlockchain 5).chain.head? = some b → b.previousBlockHash = none) ∧
    (∀ i x y, (newBlockchain 5).chain[i]? = some x →
      (newBlockchain 5).chain[i + 1]? = some y →
      y.previousBlockHash = x.hash) :=
  linkage_invariant (newBlockchain 5) (Reachable.init 5)

/-- C9: initialization is idempotent.  The constructor seeds exactly one
genesis record; on every reachable state `initializeChain` is a no-op
(the height is no longer `-1`); the first record has position 0 and the
`null` sentinel; the chain height stays at least 1; and no reachable
state ever holds more than one record with the sentinel previous hash. -/
theorem initialization_idempotent (t t' : Nat) (s : ChainState)
    (hs : Reachable s) :
    (newBlockchain t).chain.length = 1 ∧
    initializeChain s t' = s ∧
    (∀ b, s.chain.head? = some b → b.height = 0 ∧ b.previousBlockHash = none) ∧
    1 ≤ s.height ∧
    s.chain.countP (fun b => b.previousBlockHash == none) = 1 := by
  obtain ⟨hne, hht, -, hlink, hpos, hcount⟩ := reachable_inv hs
  have hlen1 : 1 ≤ s.chain.length := by
    cases hc : s.chain with
    | nil => exact absurd hc hne
    | cons _ _ => simp [hc]
  have hh1 : (1 : Int) ≤ s.height := by rw [hht]; exact_mod_cast hlen1
  refine ⟨by simp [newBlockchain_eq], ?_, ?_, hh1, hcount⟩
  · unfold initializeChain
    rw [if_neg]
    omega
  · intro b hb
    refine ⟨?_, linkedFrom_head hlink hb⟩
    have h0 : s.chain[0]? = some b := by
      rw [← List.head?_eq_getElem?]; exact hb
    exact hpos 0 b h0

theorem initialization_idempotent_witness :
    (newBlockchain 3).chain.length = 1 ∧
    initializeChain (newBlockchain 3) 4 = newBlockchain 3 ∧
    (∀ b, (newBlockchain 3).chain.head? = some b →
      b.height = 0 ∧ b.previousBlockHash = none) ∧
    1 ≤ (newBlockchain 3).height ∧
    (newBlockchain 3).chain.countP (fun b => b.previousBlockHash == none) = 1 :=
  initialization_idempotent 3 4 (newBlockchain 3) (Reachable.init 3)

/-- C10: appending a null block is rejected with the null-payload error
(`reject(block)`), and every append failure is atomic: whenever
`_addBlock` does not resolve with a block, the chain array and the height
field are exactly what they were before the call. -/
theorem null_append_rejected_and_atomic (s : ChainState) (b? : Option Block)
    (now : Nat) :
    (_addBlock s none now).1 = Except.error AddErr.nullBlock ∧
    (_addBlock s none now).2 = s ∧
    (∀ e, (_addBlock s b? now).1 = Except.error e → (_addBlock s b? now).2 = s) := by
  refine ⟨rfl, rfl, ?_⟩
  intro e hfail
  match b? with
  | none => rfl
  | some b =>
    cases hL : s.chain.getLast? with
    | some prev =>
      rw [addBlock_ok_eq s b now prev hL] at hfail
      simp at hfail
    | none =>
      simp [_addBlock, hL, jsTruthyBlock] at hfail

theorem null_append_rejected_and_atomic_witness :
    (_addBlock (newBlockchain 0) none 7).1 = Except.error AddErr.nullBlock ∧
    (_addBlock (newBlockchain 0) none 7).2 = newBlockchain 0 ∧
    (∀ e, (_addBlock (newBlockchain 0) none 7).1 = Except.error e →
      (_addBlock (newBlockchain 0) none 7).2 = newBlockchain 0) :=
  null_append_rejected_and_atomic (newBlockchain 0) none 7

/-- C6: the "Chain Invalid" rejection branch of `_addBlock` is dead code:
`validateChain` always resolves with the error-log array, an array is
always truthy, so every non-genesis append of a non-null block resolves
with the block and pushes it — whatever validation errors the chain
holds. -/
theorem chain_invalid_branch_unreachable (s : ChainState) (b : Block)
    (now : Nat) (hne : s.chain ≠ []) :
    jsTruthy (validateChain s.chain) = true ∧
    (∃ blk, (_addBlock s (some b) now).1 = Except.ok blk ∧
      (_addBlock s (some b) now).2.chain = s.chain ++ [blk]) ∧
    (_addBlock s (some b) now).1 ≠ Except.error AddErr.chainInvalid := by
  obtain ⟨prev, hL⟩ : ∃ prev, s.chain.getLast? = some prev := by
    cases hGL : s.chain.getLast? with
    | none => exact absurd (List.getLast?_eq_none_iff.mp hGL) hne
    | some prev => exact ⟨prev, rfl⟩
  rw [addBlock_ok_eq s b now prev hL]
  exact ⟨rfl, ⟨mkAppended b prev now, rfl, rfl⟩, by simp⟩

/-- A two-block state whose chain already carries validation errors (the
second block fails `blockValidate` because its digest was computed before
its `height` and `previousBlockHash` were overwritten). -/
def c6Star : Block := BlockClass.Block (Payload.star "ann:1:starRegistry" "sg" "st")

def c6State : ChainState := (_addBlock (newBlockchain 1) (some c6Star) 2).2

theorem chain_invalid_branch_unreachable_witness :
    c6State.chain ≠ [] ∧
    validateChain c6State.chain ≠ [] ∧
    (jsTruthy (validateChain c6State.chain) = true ∧
     (∃ blk, (_addBlock c6State (some c6Star) 3).1 = Except.ok blk ∧
       (_addBlock c6State (some c6Star) 3).2.chain = c6State.chain ++ [blk]) ∧
     (_addBlock c6State (some c6Star) 3).1 ≠ Except.error AddErr.chainInvalid) :=
  ⟨by decide, by decide,
   chain_invalid_branch_unreachable c6State c6Star 3 (by decide)⟩

/-- C5 counterexample: contrary to the claim that append does not run
full-chain validation before writing, `_addBlock`'s non-genesis branch
invokes `this.validateChain()` exactly once before pushing (the
invocation trace of a non-genesis append is 1, not 0). -/
theorem append_invokes_validation :
    addBlockValidateRuns (newBlockchain 0)
      (some (BlockClass.Block (Payload.star "m:1:starRegistry" "g" "s"))) = 1 := by
  decide

/-- C5 as amended: the non-genesis append DOES invoke full-chain
validation (once), but its outcome never affects the result: the settled
result and the appended record depend only on the current tail record
and the submitted block, so two states with the same tail give the same
appended block regardless of the rest of their chains or any validation
errors in them. -/
theorem append_ignores_validation_outcome (s₁ s₂ : ChainState) (b : Block)
    (now : Nat) (h₁ : s₁.chain ≠ [])
    (hlast : s₁.chain.getLast? = s₂.chain.getLast?) :
    addBlockValidateRuns s₁ (some b) = 1 ∧
    (_addBlock s₁ (some b) now).1 = (_addBlock s₂ (some b) now).1 ∧
    (∃ blk, (_addBlock s₁ (some b) now).1 = Except.ok blk ∧
      (_addBlock s₁ (some b) now).2.chain = s₁.chain ++ [blk] ∧
      (_addBlock s₂ (some b) now).2.chain = s₂.chain ++ [blk]) := by
  obtain ⟨prev, hL₁⟩ : ∃ prev, s₁.chain.getLast? = some prev := by
    cases hGL : s₁.chain.getLast? with
    | none => exact absurd (List.getLast?_eq_none_iff.mp hGL) h₁
    | some prev => exact ⟨prev, rfl⟩
  have hL₂ : s₂.chain.getLast? = some prev := by rw [← hlast]; exact hL₁
  rw [addBlock_ok_eq s₁ b now prev hL₁, addBlock_ok_eq s₂ b now prev hL₂]
  exact ⟨by simp [addBlockValidateRuns, hL₁], rfl,
    ⟨mkAppended b prev now, rfl, rfl, rfl⟩⟩

/-- A two-block state and a one-block state sharing the same tail record,
used to witness that the appended result ignores everything but the
tail. -/
def c5Star : Block := BlockClass.Block (Payload.star "bob:2:starRegistry" "g" "s")

def c5State : ChainState := (_addBlock (newBlockchain 3) (some c5Star) 4).2

def c5TailOnly : ChainState :=
  { chain := [c5State.chain.getD 1 c5Star], height := 1 }

theorem append_ignores_validation_outcome_witness :
    addBlockValidateRuns c5State (some c5Star) = 1 ∧
    (_addBlock c5State (some c5Star) 9).1 =
      (_addBlock c5TailOnly (some c5Star) 9).1 ∧
    (∃ blk, (_addBlock c5State (some c5Star) 9).1 = Except.ok blk ∧
      (_addBlock c5State (some c5Star) 9).2.chain = c5State.chain ++ [blk] ∧
      (_addBlock c5TailOnly (some c5Star) 9).2.chain = c5TailOnly.chain ++ [blk]) :=
  append_ignores_validation_outcome c5State c5TailOnly c5Star 9
    (by decide) (by decide)

/-- The concrete payload and post-append state of claim C1's failing
input: one ordinary append after initialization. -/
def c1Star : Block := BlockClass.Block (Payload.star "addr:1:starRegistry" "sig" "star-one")

def c1State : ChainState := (_addBlock (newBlockchain 10) (some c1Star) 20).2

def c1Appended : Block := c1State.chain.getD 1 c1Star

/-- C1 fails on the code: `_addBlock` computes the digest at line 71,
BEFORE lines 75-76 overwrite `height` and `previousBlockHash` from the
tail, so the stored digest of the appended record does not equal the
Hasher applied to the record's final fields excluding the digest (it was
taken over the constructor defaults `height = 0`,
`previousBlockHash = null`).  Consequently the record fails its own
body-validation check. -/
theorem stored_digest_not_over_final_fields :
    c1State.chain.getLast? = some c1Appended ∧
    c1Appended.hash ≠
      some (SHA256 (stringifyBlock { c1Appended with hash := none })) ∧
    blockValidate c1Appended = false := by
  exact ⟨by decide, by decide, by decide⟩

/-- C3 fails on the code: `submitStar` compares
`new Date(currentTime - messageTime).getMinutes() < 5`, i.e. it feeds the
SECONDS difference to `Date` as MILLISECONDS and looks at the
minutes-of-hour component of the resulting instant.  For a challenge
issued at second 1000000 and submitted at second 1000301 (301 elapsed
wall-clock seconds, which the claim says must be rejected as expired),
the computed value is `Date(301).getMinutes() = 0 < 5`, so the submission
is ACCEPTED and the star block is appended. -/
theorem stale_challenge_accepted :
    jsDateGetMinutes ((1000301 : Int) - 1000000) = 0 ∧
    (∃ blk, (submitStar (newBlockchain 5) "addr" "addr:1000000:starRegistry"
      "sig" "starX" 1000301 true).1 = Except.ok blk) ∧
    (submitStar (newBlockchain 5) "addr" "addr:1000000:starRegistry"
      "sig" "starX" 1000301 true).2.chain.length = 2 := by
  exact ⟨by decide, ⟨_, rfl⟩, by decide⟩

deriving instance DecidableEq for Except

/-- C8 counterexample: for a digest absent from the ledger the by-digest
query does NOT return absence — `getBlockByHash` rejects with the error
"Block Not Found.". -/
theorem missing_digest_is_an_error :
    getBlockByHash (newBlockchain 0).chain "no-such-digest" =
      Except.error "Block Not Found." := by
  decide

/-- C8 as amended: for a digest absent from the ledger the by-digest
query rejects with the "Block Not Found." error (an error, not absence),
while the by-position query does return absence (`null`) for an
out-of-range position. -/
theorem absent_lookups (l : List Block) (d : String) (p : Nat)
    (hd : ∀ b ∈ l, b.hash ≠ some d) (hp : ∀ b ∈ l, b.height ≠ p) :
    getBlockByHash l d = Except.error "Block Not Found." ∧
    getBlockByHeight l p = none := by
  constructor
  · have hfind : l.find? (fun b => b.hash == some d) = none := by
      rw [List.find?_eq_none]
      intro b hb
      simp [hd b hb]
    simp [getBlockByHash, hfind]
  · have hfilter : l.filter (fun b => b.height == p) = [] := by
      rw [List.filter_eq_nil_iff]
      intro b hb
      simp [hp b hb]
    simp [getBlockByHeight, hfilter]

theorem absent_lookups_witness :
    getBlockByHash (newBlockchain 0).chain "zzz" = Except.error "Block Not Found." ∧
    getBlockByHeight (newBlockchain 0).chain 7 = none :=
  absent_lookups (newBlockchain 0).chain "zzz" 7 (by decide) (by decide)

theorem bodyAltered_mem_validateChain {l : List Block} {b : Block}
    (hb : b ∈ l) (hv : blockValidate b = false) :
    ChainError.bodyAltered b.hash ∈ validateChain l := by
  have hne : l.isEmpty = false := by
    cases l with
    | nil => simp at hb
    | cons x xs => simp
  unfold validateChain
  rw [hne]
  simp only [Bool.false_eq_true, if_false]
  apply List.mem_append_right
  unfold bodyErrors
  exact List.mem_filterMap.mpr ⟨b, hb, by simp [hv]⟩

/-- C4: whenever a ledger holds a record whose recomputed digest differs
from its stored digest (an altered body), the resolved error log of
`validateChain` contains the "Block's Body has been altered." finding for
that record; and this holds for EVERY such record of the chain at once —
the validator walks the whole chain and never short-circuits on the
first error. -/
theorem tampered_body_reported (l : List Block) (b : Block)
    (hb : b ∈ l) (hv : blockValidate b = false) :
    ChainError.bodyAltered b.hash ∈ validateChain l ∧
    ∀ b' ∈ l, blockValidate b' = false →
      ChainError.bodyAltered b'.hash ∈ validateChain l :=
  ⟨bodyAltered_mem_validateChain hb hv,
   fun _ hb' hv' => bodyAltered_mem_validateChain hb' hv'⟩

/-- A valid genesis whose payload is then overwritten in place, together
with an ordinary appended record, giving a chain with two altered-body
records. -/
def c4State : ChainState :=
  (_addBlock (newBlockchain 2)
    (some (BlockClass.Block (Payload.star "s:1:starRegistry" "g" "t"))) 3).2

def c4Tampered : Block :=
  { c4State.chain.getD 0 (BlockClass.Block (Payload.genesis "Genesis Block")) with
      body := Payload.genesis "Tampered Data" }

def c4Second : Block :=
  c4State.chain.getD 1 (BlockClass.Block (Payload.genesis "Genesis Block"))

def c4Chain : List Block := [c4Tampered, c4Second]

theorem tampered_body_reported_witness :
    blockValidate c4Tampered = false ∧
    blockValidate c4Second = false ∧
    ChainError.bodyAltered c4Tampered.hash ∈ validateChain c4Chain ∧
    ChainError.bodyAltered c4Second.hash ∈ validateChain c4Chain :=
  ⟨by decide, by decide,
   (tampered_body_reported c4Chain c4Tampered (by decide) (by decide)).1,
   (tampered_body_reported c4Chain c4Tampered (by decide) (by decide)).2
     c4Second (by decide) (by decide)⟩

theorem splitCharAux_no_sep (sep : Char) (l : List Char) (acc r : List Char)
    (h : ∀ ch ∈ l, ch ≠ sep) :
    splitCharAux sep (l ++ sep :: r) acc =
      (acc.reverse ++ l) :: splitCharAux sep r [] := by
  induction l generalizing acc with
  | nil => simp [splitCharAux]
  | cons c cs ih =>
    have hc : ¬c = sep := h c (by simp)
    simp only [List.cons_append, splitCharAux, if_neg hc, List.append_eq]
    rw [ih (c :: acc) (fun ch hch => h ch (by simp [hch]))]
    simp

theorem jsSplit_head_before_sep (addr r : String)
    (h : (':' : Char) ∉ addr.toList) :
    (jsSplit ':' (addr ++ ":" ++ r)).getD 0 "" = addr := by
  have hlist : (addr ++ ":" ++ r).toList = addr.toList ++ ':' :: r.toList := by
    simp [String.toList, String.data_append]
  unfold jsSplit
  rw [hlist, splitCharAux_no_sep ':' addr.toList [] r.toList
    (fun ch hch => by rintro rfl; exact h hch)]
  simp [String.toList]

theorem requestMessage_split (addr : String) (t : Nat)
    (h : (':' : Char) ∉ addr.toList) :
    (jsSplit ':' (requestMessageOwnershipVerification addr t)).getD 0 "" = addr := by
  have he : requestMessageOwnershipVerification addr t =
      addr ++ ":" ++ (toString t ++ ":starRegistry") := by
    simp [requestMessageOwnershipVerification, String.append_assoc]
  rw [he]
  exact jsSplit_head_before_sep addr _ h

/-- C7: for a ledger holding the genesis record, two records owned by
address `A`, one owned by `B`, and one undecodable record (in that
append order), the owner query for `A` resolves with exactly the two
`A`-owned stars in append order: the genesis record's non-conforming
payload and the undecodable payload are skipped by the per-record decode
handlers without failing the query, and `B`'s record does not match. -/
theorem owner_query_returns_stars
    (A B gdata sg1 sg2 sg3 st1 st2 st3 junk : String) (t1 t2 t3 : Nat)
    (g b1 b2 b3 b4 : Block)
    (hA : (':' : Char) ∉ A.toList) (hB : (':' : Char) ∉ B.toList)
    (hBA : B ≠ A)
    (hg : g.body = Payload.genesis gdata)
    (h1 : b1.body = Payload.star (requestMessageOwnershipVerification A t1) sg1 st1)
    (h2 : b2.body = Payload.star (requestMessageOwnershipVerification A t2) sg2 st2)
    (h3 : b3.body = Payload.star (requestMessageOwnershipVerification B t3) sg3 st3)
    (h4 : b4.body = Payload.undecodable junk) :
    getStarsByWalletAddress [g, b1, b2, b3, b4] A =
      Except.ok [(A, st1), (A, st2)] := by
  have e1 : (jsSplit ':' (requestMessageOwnershipVerification A t1))[0]?.getD "" = A := by
    rw [← List.getD_eq_getElem?_getD]; exact requestMessage_split A t1 hA
  have e2 : (jsSplit ':' (requestMessageOwnershipVerification A t2))[0]?.getD "" = A := by
    rw [← List.getD_eq_getElem?_getD]; exact requestMessage_split A t2 hA
  have e3 : (jsSplit ':' (requestMessageOwnershipVerification B t3))[0]?.getD "" = B := by
    rw [← List.getD_eq_getElem?_getD]; exact requestMessage_split B t3 hB
  simp [getStarsByWalletAddress, starOf, getBData, hg, h1, h2, h3, h4,
    e1, e2, e3, List.filterMap_cons, hBA]

def c7G : Block := BlockClass.Block (Payload.genesis "Genesis Block")

def c7B1 : Block :=
  BlockClass.Block (Payload.star (requestMessageOwnershipVerification "annie" 1) "g1" "star-a1")

def c7B2 : Block :=
  BlockClass.Block (Payload.star (requestMessageOwnershipVerification "annie" 2) "g2" "star-a2")

def c7B3 : Block :=
  BlockClass.Block (Payload.star (requestMessageOwnershipVerification "bob" 3) "g3" "star-b")

def c7B4 : Block := BlockClass.Block (Payload.undecodable "junk")

theorem owner_query_returns_stars_witness :
    getStarsByWalletAddress [c7G, c7B1, c7B2, c7B3, c7B4] "annie" =
      Except.ok [("annie", "star-a1"), ("annie", "star-a2")] :=
  owner_query_returns_stars "annie" "bob" "Genesis Block" "g1" "g2" "g3"
    "star-a1" "star-a2" "star-b" "junk" 1 2 3 c7G c7B1 c7B2 c7B3 c7B4
    (by decide) (by decide) (by decide) rfl rfl rfl rfl rfl
